import Mathlib

/-
  Verification development for the streaming response decoder and event
  classifier of invoke_agentcore.py.

  Modelling conventions:
  - Python text (str) is modelled as a list of Unicode code points (List Nat).
  - Python bytes are modelled as List Nat with entries below 256.
  - A Python JSON value (the result of json.loads, or a value handed to
    process_streaming_chunk) is modelled by the inductive type Json below;
    Json.null doubles as the Python value None.  Object fields and array
    items use the mutually inductive JObj and JArr so that all recursion
    over values is structural and computable.
  - Console output (print calls) is collected as a list of printed strings.
  - Python exceptions (AttributeError from attribute access on a non-dict,
    TypeError from joining non-strings) are modelled with Except / an error
    field carrying the message text.
-/

/-- Code points of a string literal, used to write ASCII text constants. -/
def strCp (s : String) : List Nat := s.toList.map Char.toNat

/-- The eleven key names recognized by process_streaming_chunk. -/
def kToolUse : List Nat := strCp "tool_use"

def kToolCall : List Nat := strCp "tool_call"

def kToolResult : List Nat := strCp "tool_result"

def kThinking : List Nat := strCp "thinking"

def kReasoning : List Nat := strCp "reasoning"

def kStep : List Nat := strCp "step"

def kStatus : List Nat := strCp "status"

def kContent : List Nat := strCp "content"

def kDelta : List Nat := strCp "delta"

def kText : List Nat := strCp "text"

def kEvent : List Nat := strCp "event"

def kName : List Nat := strCp "name"

def kInput : List Nat := strCp "input"

def kArguments : List Nat := strCp "arguments"

def kNumber : List Nat := strCp "number"

def kDescription : List Nat := strCp "description"

def kAction : List Nat := strCp "action"

mutual

/-- Python JSON values.  Objects keep their fields in parse order; a
duplicate key is resolved by dGet, which returns the last binding, matching
Python dict construction.  Non-integer numerals keep their literal text
(float values are not interpreted).  Json.null doubles as Python None. -/
inductive Json where
  | null : Json
  | bool (b : Bool) : Json
  | num (n : Int) : Json
  | numNonInt (lit : List Nat) : Json
  | str (s : List Nat) : Json
  | arr (items : JArr) : Json
  | obj (fields : JObj) : Json

/-- Items of a JSON array. -/
inductive JArr where
  | nil : JArr
  | cons (hd : Json) (tl : JArr) : JArr

/-- Fields of a JSON object, in insertion order. -/
inductive JObj where
  | nil : JObj
  | cons (key : List Nat) (val : Json) (tl : JObj) : JObj

end

/-- Build an object field list from an ordinary list of pairs. -/
def jobj : List (List Nat × Json) → JObj
  | [] => .nil
  | p :: ps => .cons p.1 p.2 (jobj ps)

/-- Build an array item list from an ordinary list of values. -/
def jarr : List Json → JArr
  | [] => .nil
  | j :: js => .cons j (jarr js)

/-- The items of an array as an ordinary list. -/
def JArr.toList : JArr → List Json
  | .nil => []
  | .cons j js => j :: js.toList

/-- The fields of an object as an ordinary list of pairs. -/
def JObj.fieldsList : JObj → List (List Nat × Json)
  | .nil => []
  | .cons k v tl => (k, v) :: tl.fieldsList

/-- Python `key in d` membership test on an object. -/
def hasKey (fs : JObj) (k : List Nat) : Bool :=
  fs.fieldsList.any fun p => p.1 == k

/-- Python d.get(k, dflt): the value of the last binding of k, else dflt. -/
def dGet (fs : JObj) (k : List Nat) (dflt : Json) : Json :=
  match fs.fieldsList.reverse.find? (fun p => p.1 == k) with
  | some p => p.2
  | none => dflt

/-- Python d[k] at a call site guarded by a membership test. -/
def dIndex (fs : JObj) (k : List Nat) : Json :=
  dGet fs k Json.null

/-- Python truthiness of a value, as used in the if-chunk tests.  A
non-integer numeral is treated as truthy (the claims never exercise the
float 0.0 edge case). -/
def Json.truthy : Json → Bool
  | .null => false
  | .bool b => b
  | .num n => n != 0
  | .numNonInt _ => true
  | .str s => !s.isEmpty
  | .arr .nil => false
  | .arr (.cons _ _) => true
  | .obj .nil => false
  | .obj (.cons _ _ _) => true

/-- Python type name of a value, used in AttributeError messages. -/
def Json.pyTypeName : Json → List Nat
  | .null => strCp "NoneType"
  | .bool _ => strCp "bool"
  | .num _ => strCp "int"
  | .numNonInt _ => strCp "float"
  | .str _ => strCp "str"
  | .arr _ => strCp "list"
  | .obj _ => strCp "dict"

/-- Decimal digits of a natural number. -/
def natDec (n : Nat) : List Nat := (Nat.toDigits 10 n).map Char.toNat

/-- Decimal rendering of an integer. -/
def intDec (i : Int) : List Nat :=
  if i < 0 then 45 :: natDec i.natAbs else natDec i.natAbs

mutual

/-- Python repr of a value (the rendering used inside containers).
Strings are wrapped in single quotes; escape refinements of repr are not
modelled since no claim inspects this text. -/
def pyRepr : Json → List Nat
  | .null => strCp "None"
  | .bool true => strCp "True"
  | .bool false => strCp "False"
  | .num n => intDec n
  | .numNonInt lit => lit
  | .str s => 39 :: s ++ [39]
  | .arr xs => 91 :: pyReprArr xs ++ [93]
  | .obj fs => 123 :: pyReprObj fs ++ [125]

/-- Comma-separated repr of array items. -/
def pyReprArr : JArr → List Nat
  | .nil => []
  | .cons j .nil => pyRepr j
  | .cons j tl => pyRepr j ++ strCp ", " ++ pyReprArr tl

/-- Comma-separated repr of object fields. -/
def pyReprObj : JObj → List Nat
  | .nil => []
  | .cons k v .nil => 39 :: k ++ [39] ++ strCp ": " ++ pyRepr v
  | .cons k v tl => 39 :: k ++ [39] ++ strCp ": " ++ pyRepr v ++ strCp ", " ++ pyReprObj tl

end

/-- Python str() of a value, as used by f-string interpolation: a string
renders as itself, containers render via repr. -/
def Json.pyStr : Json → List Nat
  | .str s => s
  | j => pyRepr j

/-- Four hex digits (upper bits first) for the dumps escape of a code unit. -/
def hex4 (n : Nat) : List Nat :=
  let d := fun k => let v := n / k % 16; if v < 10 then 48 + v else 87 + v
  [d 4096, d 256, d 16, d 1]

/-- JSON string escaping as performed by json.dumps with ensure_ascii. -/
def dumpsEscape (c : Nat) : List Nat :=
  if c = 34 then [92, 34]
  else if c = 92 then [92, 92]
  else if c = 8 then [92, 98]
  else if c = 12 then [92, 102]
  else if c = 10 then [92, 110]
  else if c = 13 then [92, 114]
  else if c = 9 then [92, 116]
  else if c < 32 then 92 :: 117 :: hex4 c
  else if c ≤ 126 then [c]
  else if c ≤ 0xFFFF then 92 :: 117 :: hex4 c
  else
    let v := c - 0x10000
    (92 :: 117 :: hex4 (0xD800 + v / 1024)) ++ (92 :: 117 :: hex4 (0xDC00 + v % 1024))

/-- A quoted, escaped JSON string literal as rendered by json.dumps. -/
def dumpsStr (s : List Nat) : List Nat :=
  34 :: (s.map dumpsEscape).flatten ++ [34]

/-- Newline followed by a given number of spaces, for indented dumps. -/
def nlIndent (n : Nat) : List Nat := 10 :: List.replicate n 32

mutual

/-- Model of json.dumps(v, indent=2) at a given indentation level.  No
claim inspects this text; it is rendered only inside the tool-usage
display line. -/
def dumpsInd : Nat → Json → List Nat
  | _, .null => strCp "null"
  | _, .bool true => strCp "true"
  | _, .bool false => strCp "false"
  | _, .num n => intDec n
  | _, .numNonInt lit => lit
  | _, .str s => dumpsStr s
  | _, .arr .nil => [91, 93]
  | lvl, .arr xs => 91 :: nlIndent (lvl + 2) ++ dumpsIndArr (lvl + 2) xs ++ nlIndent lvl ++ [93]
  | _, .obj .nil => [123, 125]
  | lvl, .obj fs => 123 :: nlIndent (lvl + 2) ++ dumpsIndObj (lvl + 2) fs ++ nlIndent lvl ++ [125]

/-- dumps rendering of array items, comma plus fresh indented line between. -/
def dumpsIndArr : Nat → JArr → List Nat
  | _, .nil => []
  | lvl, .cons j .nil => dumpsInd lvl j
  | lvl, .cons j tl => dumpsInd lvl j ++ [44] ++ nlIndent lvl ++ dumpsIndArr lvl tl

/-- dumps rendering of object fields, comma plus fresh indented line between. -/
def dumpsIndObj : Nat → JObj → List Nat
  | _, .nil => []
  | lvl, .cons k v .nil => dumpsStr k ++ strCp ": " ++ dumpsInd lvl v
  | lvl, .cons k v tl =>
      dumpsStr k ++ strCp ": " ++ dumpsInd lvl v ++ [44] ++ nlIndent lvl ++ dumpsIndObj lvl tl

end

/-- json.dumps(v, indent=2). -/
def dumpsInd2 (j : Json) : List Nat := dumpsInd 0 j

/-- Python "".join over collected parts: succeeds only when every part is a
string, otherwise a TypeError is raised. -/
def joinStrs : List Json → Option (List Nat)
  | [] => some []
  | .str s :: rest => (joinStrs rest).map (fun t => s ++ t)
  | _ :: _ => none

/-- Exceptions that can escape the decoding pipeline, carrying the Python
message text. -/
inductive PyErr where
  | attributeError (msg : List Nat) : PyErr
  | typeError (msg : List Nat) : PyErr

/-- Message of an AttributeError raised by calling .get on a non-dict. -/
def noGetAttrMsg (tyName : List Nat) : List Nat :=
  39 :: tyName ++ [39] ++ strCp " object has no attribute " ++ 39 :: strCp "get" ++ [39]

/-- Message text carried by an exception, as printed by the caller. -/
def PyErr.msg : PyErr → List Nat
  | .attributeError m => m
  | .typeError m => m

/-- Which return statement of process_streaming_chunk produced the result.
noMatch stands for the final fallthrough return None. -/
inductive Rule where
  | toolUse
  | toolResult
  | thinking
  | stepInfo
  | statusRule
  | contentRule
  | delta
  | textField
  | eventMarker
  | plainString
  | noMatch
deriving DecidableEq

/-- Direct embedding of process_streaming_chunk (invoke_agentcore.py lines
19-102).  The result carries the printed lines, the Python return value
(Json.null for None, Json.str [] for the empty string) and the return site
that produced it; attribute access on a non-dict raises AttributeError and
joining non-string content parts raises TypeError, modelled as Except
errors. -/
def process_streaming_chunk (json_data : Json) :
    Except PyErr (List (List Nat) × Json × Rule) :=
  match json_data with
  | .obj fs =>
    if hasKey fs kToolUse || hasKey fs kToolCall then
      let tool_info := dGet fs kToolUse (dGet fs kToolCall (Json.obj .nil))
      match tool_info with
      | .obj ti =>
        let tool_name := dGet ti kName (Json.str (strCp "unknown_tool"))
        let tool_args := dGet ti kInput (dGet ti kArguments (Json.obj .nil))
        Except.ok
          ([strCp "\n[tool] " ++ tool_name.pyStr]
            ++ (if tool_args.truthy then [dumpsInd2 tool_args] else [])
            ++ [strCp "[status] running..."],
           Json.str [], Rule.toolUse)
      | other => Except.error (PyErr.attributeError (noGetAttrMsg other.pyTypeName))
    else if hasKey fs kToolResult then
      let result := dIndex fs kToolResult
      let mid : List (List Nat) :=
        match result with
        | .obj rf =>
          if hasKey rf kContent then
            match dIndex rf kContent with
            | .str c =>
              if c.length > 200 then
                [strCp "[result] " ++ (c.take 200 ++ strCp "...")]
              else
                [strCp "[result] " ++ c]
            | other => [strCp "[result] " ++ other.pyStr]
          else []
        | _ => []
      Except.ok
        ([strCp "\n[tool] completed"] ++ mid ++ [strCp "[status] agent continuing...\n"],
         Json.str [], Rule.toolResult)
    else if hasKey fs kThinking || hasKey fs kReasoning then
      let thinking := dGet fs kThinking (dGet fs kReasoning (Json.str []))
      Except.ok ([strCp "\n[thinking] " ++ thinking.pyStr], Json.str [], Rule.thinking)
    else if hasKey fs kStep then
      match dIndex fs kStep with
      | .obj si =>
        let step_num := dGet si kNumber (Json.str (strCp "?"))
        let step_desc := dGet si kDescription (dGet si kAction (Json.str []))
        Except.ok
          ([strCp "\n[step " ++ step_num.pyStr ++ strCp "] " ++ step_desc.pyStr],
           Json.str [], Rule.stepInfo)
      | other => Except.error (PyErr.attributeError (noGetAttrMsg other.pyTypeName))
    else if hasKey fs kStatus then
      Except.ok ([strCp "\n[status] " ++ (dIndex fs kStatus).pyStr], Json.str [], Rule.statusRule)
    else if hasKey fs kContent then
      match dIndex fs kContent with
      | .arr items =>
        let text_parts : List Json :=
          items.toList.foldr
            (fun item acc =>
              match item with
              | .obj io => if hasKey io kText then dIndex io kText :: acc else acc
              | .str s => Json.str s :: acc
              | _ => acc)
            []
        match joinStrs text_parts with
        | some s => Except.ok ([], Json.str s, Rule.contentRule)
        | none =>
            Except.error (PyErr.typeError (strCp "sequence item: expected str instance"))
      | .str s => Except.ok ([], Json.str s, Rule.contentRule)
      | other => Except.ok ([], Json.str other.pyStr, Rule.contentRule)
    else
      -- The delta check can fall through: when the delta value is neither a
      -- dict containing a content key nor a string, no return fires and
      -- control continues with the text and event checks.
      let deltaHit : Option Json :=
        if hasKey fs kDelta then
          match dIndex fs kDelta with
          | .obj df => if hasKey df kContent then some (dIndex df kContent) else none
          | .str s => some (Json.str s)
          | _ => none
        else none
      match deltaHit with
      | some v => Except.ok ([], v, Rule.delta)
      | none =>
        if hasKey fs kText then
          Except.ok ([], dIndex fs kText, Rule.textField)
        else if hasKey fs kEvent then
          Except.ok ([strCp "\n[event] " ++ (dIndex fs kEvent).pyStr], Json.str [], Rule.eventMarker)
        else
          Except.ok ([], Json.null, Rule.noMatch)
  | .str s => Except.ok ([], Json.str s, Rule.plainString)
  | _ => Except.ok ([], Json.null, Rule.noMatch)

/-
  UTF-8 layer.  CPython raises UnicodeDecodeError whenever bytes.decode
  fails, whether the offending suffix is a truncated multi-byte unit or an
  outright invalid byte; the strict decoder therefore returns Option.  The
  replace-mode decoder substitutes U+FFFD for each maximal subpart of an
  ill-formed sequence, as CPython does for errors equal to replace.
-/

/-- A continuation byte, second and later bytes of a multi-byte unit. -/
def IsCont (b : Nat) : Prop := 128 ≤ b ∧ b ≤ 191

instance (b : Nat) : Decidable (IsCont b) := by
  unfold IsCont
  exact inferInstance

/-- Constraint on the second byte of a three-byte unit, which depends on
the lead byte: lead 224 needs 160..191, lead 237 needs 128..159 (excluding
surrogates), other leads accept any continuation byte. -/
def Cont3a (b b1 : Nat) : Prop :=
  (b = 224 → 160 ≤ b1 ∧ b1 ≤ 191) ∧
  (b = 237 → 128 ≤ b1 ∧ b1 ≤ 159) ∧
  (b ≠ 224 → b ≠ 237 → IsCont b1)

instance (b b1 : Nat) : Decidable (Cont3a b b1) := by
  unfold Cont3a
  exact inferInstance

/-- Constraint on the second byte of a four-byte unit: lead 240 needs
144..191, lead 244 needs 128..143, other leads accept any continuation. -/
def Cont4a (b b1 : Nat) : Prop :=
  (b = 240 → 144 ≤ b1 ∧ b1 ≤ 191) ∧
  (b = 244 → 128 ≤ b1 ∧ b1 ≤ 143) ∧
  (b ≠ 240 → b ≠ 244 → IsCont b1)

instance (b b1 : Nat) : Decidable (Cont4a b b1) := by
  unfold Cont4a
  exact inferInstance

/-- Strict UTF-8 decoding of a byte sequence into code points; none models
bytes.decode raising UnicodeDecodeError, on truncated units and on invalid
bytes alike. -/
def utf8DecodeStrict : List Nat → Option (List Nat)
  | [] => some []
  | b :: bs =>
    if b ≤ 127 then
      (utf8DecodeStrict bs).map (fun t => b :: t)
    else if 194 ≤ b ∧ b ≤ 223 then
      match bs with
      | [] => none
      | b1 :: bs1 =>
        if IsCont b1 then
          (utf8DecodeStrict bs1).map (fun t => ((b - 192) * 64 + (b1 - 128)) :: t)
        else none
    else if 224 ≤ b ∧ b ≤ 239 then
      match bs with
      | [] => none
      | b1 :: bs1 =>
        if Cont3a b b1 then
          match bs1 with
          | [] => none
          | b2 :: bs2 =>
            if IsCont b2 then
              (utf8DecodeStrict bs2).map
                (fun t => ((b - 224) * 4096 + (b1 - 128) * 64 + (b2 - 128)) :: t)
            else none
        else none
    else if 240 ≤ b ∧ b ≤ 244 then
      match bs with
      | [] => none
      | b1 :: bs1 =>
        if Cont4a b b1 then
          match bs1 with
          | [] => none
          | b2 :: bs2 =>
            if IsCont b2 then
              match bs2 with
              | [] => none
              | b3 :: bs3 =>
                if IsCont b3 then
                  (utf8DecodeStrict bs3).map
                    (fun t =>
                      ((b - 240) * 262144 + (b1 - 128) * 4096 + (b2 - 128) * 64 + (b3 - 128)) :: t)
                else none
            else none
        else none
    else none

/-- Replace-mode UTF-8 decoding, bytes.decode with errors equal to
replace: each maximal subpart of an ill-formed sequence becomes U+FFFD
(65533), and decoding always succeeds. -/
def utf8DecodeReplace : List Nat → List Nat
  | [] => []
  | b :: bs =>
    if b ≤ 127 then
      b :: utf8DecodeReplace bs
    else if 194 ≤ b ∧ b ≤ 223 then
      match bs with
      | [] => [65533]
      | b1 :: bs1 =>
        if IsCont b1 then
          ((b - 192) * 64 + (b1 - 128)) :: utf8DecodeReplace bs1
        else 65533 :: utf8DecodeReplace (b1 :: bs1)
    else if 224 ≤ b ∧ b ≤ 239 then
      match bs with
      | [] => [65533]
      | b1 :: bs1 =>
        if Cont3a b b1 then
          match bs1 with
          | [] => [65533]
          | b2 :: bs2 =>
            if IsCont b2 then
              ((b - 224) * 4096 + (b1 - 128) * 64 + (b2 - 128)) :: utf8DecodeReplace bs2
            else 65533 :: utf8DecodeReplace (b2 :: bs2)
        else 65533 :: utf8DecodeReplace (b1 :: bs1)
    else if 240 ≤ b ∧ b ≤ 244 then
      match bs with
      | [] => [65533]
      | b1 :: bs1 =>
        if Cont4a b b1 then
          match bs1 with
          | [] => [65533]
          | b2 :: bs2 =>
            if IsCont b2 then
              match bs2 with
              | [] => [65533]
              | b3 :: bs3 =>
                if IsCont b3 then
                  ((b - 240) * 262144 + (b1 - 128) * 4096 + (b2 - 128) * 64 + (b3 - 128))
                    :: utf8DecodeReplace bs3
                else 65533 :: utf8DecodeReplace (b3 :: bs3)
            else 65533 :: utf8DecodeReplace (b2 :: bs2)
        else 65533 :: utf8DecodeReplace (b1 :: bs1)
    else 65533 :: utf8DecodeReplace bs

/-- UTF-8 encoding of one code point. -/
def encodeCp (c : Nat) : List Nat :=
  if c ≤ 127 then [c]
  else if c ≤ 2047 then [192 + c / 64, 128 + c % 64]
  else if c ≤ 65535 then [224 + c / 4096, 128 + c / 64 % 64, 128 + c % 64]
  else [240 + c / 262144, 128 + c / 4096 % 64, 128 + c / 64 % 64, 128 + c % 64]

/-- UTF-8 encoding of a text, the concatenation of its units. -/
def utf8Encode (s : List Nat) : List Nat := (s.map encodeCp).flatten

/-- A valid Unicode scalar value: in range and not a surrogate. -/
def ValidCp (c : Nat) : Prop := c < 1114112 ∧ (c < 55296 ∨ 57343 < c)

instance (c : Nat) : Decidable (ValidCp c) := by
  unfold ValidCp
  exact inferInstance

/-
  Model of json.loads over code-point text: recursive descent following the
  JSON grammar as accepted by the CPython json module (strict strings with
  backslash escapes and surrogate-pair combination, integer and float
  numerals, the NaN and Infinity extensions, arbitrary nesting).  The fuel
  argument only needs to exceed the input length; loads passes length + 1.
-/

/-- JSON whitespace accepted between tokens: space, tab, newline, return. -/
def isWsCp (c : Nat) : Bool := c == 32 || c == 9 || c == 10 || c == 13

/-- Drop leading JSON whitespace. -/
def skipWs : List Nat → List Nat
  | [] => []
  | c :: cs => if isWsCp c then skipWs cs else c :: cs

/-- ASCII decimal digit test. -/
def isDigitCp (c : Nat) : Bool := 48 ≤ c && c ≤ 57

/-- Split a leading run of decimal digits from the rest. -/
def takeDigits : List Nat → List Nat × List Nat
  | [] => ([], [])
  | c :: cs =>
    if isDigitCp c then
      let p := takeDigits cs
      (c :: p.1, p.2)
    else ([], c :: cs)

/-- Numeric value of a digit run. -/
def digitsToNat (ds : List Nat) : Nat := ds.foldl (fun a c => a * 10 + (c - 48)) 0

/-- Value of one hex digit, for backslash-u escapes. -/
def hexVal (c : Nat) : Option Nat :=
  if 48 ≤ c ∧ c ≤ 57 then some (c - 48)
  else if 65 ≤ c ∧ c ≤ 70 then some (c - 55)
  else if 97 ≤ c ∧ c ≤ 102 then some (c - 87)
  else none

/-- Value of a four-hex-digit escape. -/
def hex4Val (h1 h2 h3 h4 : Nat) : Option Nat :=
  match hexVal h1, hexVal h2, hexVal h3, hexVal h4 with
  | some v1, some v2, some v3, some v4 => some (v1 * 4096 + v2 * 256 + v3 * 16 + v4)
  | _, _, _, _ => none

/-- Parse the body of a JSON string after the opening quote, returning the
decoded code points and the rest of the input.  Mirrors the CPython json
scanner: strict mode rejects raw control characters, backslash escapes are
decoded, a high surrogate escape followed by a low surrogate escape is
combined, and a lone surrogate escape is kept as-is.  Fuel only needs to
exceed the input length; callers pass length + 1. -/
def parseStrF : Nat → List Nat → Option (List Nat × List Nat)
  | 0, _ => none
  | _, [] => none
  | Nat.succ f, c :: cs =>
    if c == 34 then some ([], cs)
    else if c == 92 then
      match cs with
      | [] => none
      | e :: cs1 =>
        if e == 34 then (parseStrF f cs1).map (fun p => (34 :: p.1, p.2))
        else if e == 92 then (parseStrF f cs1).map (fun p => (92 :: p.1, p.2))
        else if e == 47 then (parseStrF f cs1).map (fun p => (47 :: p.1, p.2))
        else if e == 98 then (parseStrF f cs1).map (fun p => (8 :: p.1, p.2))
        else if e == 102 then (parseStrF f cs1).map (fun p => (12 :: p.1, p.2))
        else if e == 110 then (parseStrF f cs1).map (fun p => (10 :: p.1, p.2))
        else if e == 114 then (parseStrF f cs1).map (fun p => (13 :: p.1, p.2))
        else if e == 116 then (parseStrF f cs1).map (fun p => (9 :: p.1, p.2))
        else if e == 117 then
          match cs1 with
          | h1 :: h2 :: h3 :: h4 :: cs2 =>
            match hex4Val h1 h2 h3 h4 with
            | none => none
            | some u =>
              if 55296 ≤ u ∧ u ≤ 56319 then
                match cs2 with
                | 92 :: 117 :: g1 :: g2 :: g3 :: g4 :: cs3 =>
                  match hex4Val g1 g2 g3 g4 with
                  | some v =>
                    if 56320 ≤ v ∧ v ≤ 57343 then
                      (parseStrF f cs3).map
                        (fun p => ((65536 + (u - 55296) * 1024 + (v - 56320)) :: p.1, p.2))
                    else (parseStrF f cs2).map (fun p => (u :: p.1, p.2))
                  | none => (parseStrF f cs2).map (fun p => (u :: p.1, p.2))
                | _ => (parseStrF f cs2).map (fun p => (u :: p.1, p.2))
              else (parseStrF f cs2).map (fun p => (u :: p.1, p.2))
          | _ => none
        else none
    else if c ≤ 31 then none
    else (parseStrF f cs).map (fun p => (c :: p.1, p.2))

/-- Parse a JSON string body with sufficient fuel. -/
def parseStrBody (s : List Nat) : Option (List Nat × List Nat) :=
  parseStrF (s.length + 1) s

/-- Parse a JSON numeral: optional minus, integer part without leading
zeros, optional fraction and exponent.  A pure integer becomes Json.num;
a fraction or exponent keeps its literal text as Json.numNonInt. -/
def parseNum (s : List Nat) : Option (Json × List Nat) :=
  let sign : Option (List Nat) × List Nat :=
    match s with
    | 45 :: r => (some [45], r)
    | _ => (none, s)
  match takeDigits sign.2 with
  | ([], _) => none
  | (ds, r1) =>
    if ds.length > 1 ∧ ds.headD 0 = 48 then none
    else
      let fr : Option (List Nat × List Nat) :=
        match r1 with
        | 46 :: r2 =>
          match takeDigits r2 with
          | ([], _) => none
          | (fds, r3) => some (46 :: fds, r3)
        | _ => some ([], r1)
      match fr with
      | none => none
      | some (fpart, r3) =>
        let ex : Option (List Nat × List Nat) :=
          match r3 with
          | e :: r4 =>
            if e == 101 || e == 69 then
              let es : List Nat × List Nat :=
                match r4 with
                | 43 :: r5 => ([43], r5)
                | 45 :: r5 => ([45], r5)
                | _ => ([], r4)
              match takeDigits es.2 with
              | ([], _) => none
              | (eds, r6) => some (e :: es.1 ++ eds, r6)
            else some ([], r3)
          | [] => some ([], r3)
        match ex with
        | none => none
        | some (epart, rest) =>
          if fpart.isEmpty ∧ epart.isEmpty then
            match sign.1 with
            | some _ => some (Json.num (-(digitsToNat ds : Int)), rest)
            | none => some (Json.num (digitsToNat ds : Int), rest)
          else
            some (Json.numNonInt ((sign.1.getD []) ++ ds ++ fpart ++ epart), rest)

mutual

/-- Fueled parse of one JSON value at the head of the input (no leading
whitespace), returning the value and the unconsumed rest. -/
def parseVal : Nat → List Nat → Option (Json × List Nat)
  | 0, _ => none
  | Nat.succ f, s =>
    match s with
    | [] => none
    | c :: cs =>
      if c == 123 then
        match skipWs cs with
        | 125 :: r => some (Json.obj .nil, r)
        | s1 => (parseMembers f s1).map (fun p => (Json.obj p.1, p.2))
      else if c == 91 then
        match skipWs cs with
        | 93 :: r => some (Json.arr .nil, r)
        | s1 => (parseItems f s1).map (fun p => (Json.arr p.1, p.2))
      else if c == 34 then
        (parseStrBody cs).map (fun p => (Json.str p.1, p.2))
      else if c == 116 then
        match cs with
        | 114 :: 117 :: 101 :: r => some (Json.bool true, r)
        | _ => none
      else if c == 102 then
        match cs with
        | 97 :: 108 :: 115 :: 101 :: r => some (Json.bool false, r)
        | _ => none
      else if c == 110 then
        match cs with
        | 117 :: 108 :: 108 :: r => some (Json.null, r)
        | _ => none
      else if c == 78 then
        match cs with
        | 97 :: 78 :: r => some (Json.numNonInt (strCp "NaN"), r)
        | _ => none
      else if c == 73 then
        match cs with
        | 110 :: 102 :: 105 :: 110 :: 105 :: 116 :: 121 :: r =>
          some (Json.numNonInt (strCp "Infinity"), r)
        | _ => none
      else if c == 45 then
        match cs with
        | 73 :: 110 :: 102 :: 105 :: 110 :: 105 :: 116 :: 121 :: r =>
          some (Json.numNonInt (strCp "-Infinity"), r)
        | _ => parseNum (c :: cs)
      else parseNum (c :: cs)

/-- Fueled parse of object members, positioned at the first member (the
empty object was handled by the caller). -/
def parseMembers : Nat → List Nat → Option (JObj × List Nat)
  | 0, _ => none
  | Nat.succ f, s =>
    match s with
    | 34 :: cs =>
      match parseStrBody cs with
      | none => none
      | some (key, r1) =>
        match skipWs r1 with
        | 58 :: r2 =>
          match parseVal f (skipWs r2) with
          | none => none
          | some (v, r3) =>
            match skipWs r3 with
            | 44 :: r4 => (parseMembers f (skipWs r4)).map (fun p => (JObj.cons key v p.1, p.2))
            | 125 :: r4 => some (JObj.cons key v .nil, r4)
            | _ => none
        | _ => none
    | _ => none

/-- Fueled parse of array items, positioned at the first item (the empty
array was handled by the caller). -/
def parseItems : Nat → List Nat → Option (JArr × List Nat)
  | 0, _ => none
  | Nat.succ f, s =>
    match parseVal f s with
    | none => none
    | some (v, r1) =>
      match skipWs r1 with
      | 44 :: r2 => (parseItems f (skipWs r2)).map (fun p => (JArr.cons v p.1, p.2))
      | 93 :: r2 => some (JArr.cons v .nil, r2)
      | _ => none

end

/-- Model of json.loads: parse one complete value, allowing surrounding
whitespace and rejecting trailing data; none models json.JSONDecodeError. -/
def loads (s : List Nat) : Option Json :=
  match parseVal (s.length + 1) (skipWs s) with
  | some (v, r) => if skipWs r = [] then some v else none
  | none => none

/-
  Byte assembler and the non-streaming fallback loop
  (handle_non_streaming_response, invoke_agentcore.py lines 195-245).
  The StreamingBody is modelled as the list of chunks its successive
  read(64) calls return; chunk sizes are not constrained by the logic.
-/

/-- One feed of the byte assembler (lines 217-229): append the chunk to the
pending bytes, return the new pending bytes and the decoded text emitted.
On a full strict decode the buffer is cleared and its text emitted; on
failure nothing is emitted and the whole buffer is retained, unless it has
grown past 4096 bytes, in which case it is flushed with replace-mode
decoding. -/
def baFeed (pending chunk : List Nat) : List Nat × List Nat :=
  let buf := pending ++ chunk
  match utf8DecodeStrict buf with
  | some t => ([], t)
  | none =>
    if buf.length > 4096 then ([], utf8DecodeReplace buf)
    else (buf, [])

/-- End-of-stream flush of the byte assembler (lines 207-215): any pending
bytes are decoded with replace-mode decoding. -/
def baFlush (pending : List Nat) : List Nat :=
  match pending with
  | [] => []
  | _ => utf8DecodeReplace pending

/-- Run the byte assembler over a list of chunks, returning the final
pending bytes and the concatenation of all emitted text. -/
def baRun (pending : List Nat) : List (List Nat) → List Nat × List Nat
  | [] => (pending, [])
  | c :: cs =>
    let fed := baFeed pending c
    let rest := baRun fed.1 cs
    (rest.1, fed.2 ++ rest.2)

/-- Total text produced by feeding all chunks and flushing at stream end:
the byte-assembler portion of the fallback loop in isolation. -/
def assembleAll (chunks : List (List Nat)) : List Nat :=
  let run := baRun [] chunks
  run.2 ++ baFlush run.1

/-- State of the fallback loop: the returned content buffer, the JSON
accumulator, the pending byte buffer, the printed lines, the trace of
values handed to the classifier, and the first uncaught exception (which
in Python aborts the loop and propagates to the caller). -/
structure FbState where
  content : List Nat
  jsonBuf : List Nat
  byteBuf : List Nat
  prints : List (List Nat)
  classified : List Json
  err : Option PyErr

/-- Initial fallback state. -/
def fbInit : FbState :=
  { content := [], jsonBuf := [], byteBuf := [], prints := [], classified := [], err := none }

/-- One iteration of the fallback while-loop on a non-empty chunk (lines
217-242): feed the byte assembler, append any decoded text to both
buffers, then attempt a full-value parse of the JSON accumulator; on parse
success clear the accumulator and classify, printing a truthy returned
chunk.  An exception from the classifier aborts all further processing. -/
def fbStep (st : FbState) (chunk : List Nat) : FbState :=
  if st.err.isSome then st
  else
    let fed := baFeed st.byteBuf chunk
    let st1 : FbState :=
      { st with
        byteBuf := fed.1
        content := st.content ++ fed.2
        jsonBuf := st.jsonBuf ++ fed.2 }
    match loads st1.jsonBuf with
    | none => st1
    | some v =>
      let st2 := { st1 with jsonBuf := [], classified := st1.classified ++ [v] }
      match process_streaming_chunk v with
      | Except.error e => { st2 with err := some e }
      | Except.ok (ps, ret, _) =>
        { st2 with prints := st2.prints ++ ps ++ (if ret.truthy then [ret.pyStr] else []) }

/-- End of stream, reached when read returns an empty chunk (lines
207-215): flush the pending bytes into both buffers; no parse is attempted
after the flush.  Not reached when an exception is propagating. -/
def fbFinish (st : FbState) : FbState :=
  if st.err.isSome then st
  else
    let e := baFlush st.byteBuf
    { st with byteBuf := [], content := st.content ++ e, jsonBuf := st.jsonBuf ++ e }

/-- Embedding of the StreamingBody branch of handle_non_streaming_response:
run the fallback loop over all chunks and flush at end of stream.  The
content field of the result is the value the function returns when no
exception escapes. -/
def handle_non_streaming_response (chunks : List (List Nat)) : FbState :=
  fbFinish (chunks.foldl fbStep fbInit)

/-
  SSE streaming path (stream_response, invoke_agentcore.py lines 136-189).
  The transport is modelled by the Invocation type: either the invocation
  call raises (transport failure), or it yields an event-stream whose
  iter_lines produces a list of byte lines, or a non-streaming body handled
  by the fallback path.
-/

/-- Python str.strip: remove ASCII whitespace from both ends (the payloads
in scope are ASCII; the unicode whitespace refinement is not modelled). -/
def pyStrip (s : List Nat) : List Nat :=
  let ws : Nat → Bool := fun c => c == 32 || c == 9 || c == 10 || c == 13 || c == 11 || c == 12
  (s.dropWhile ws).reverse.dropWhile ws |>.reverse

/-- Processing of one iter_lines line in SSE mode (lines 150-178): skip
empty lines, decode bytes (replace-mode on decode failure), then either
handle a data-prefixed payload (skipping empty and DONE sentinels, parsing
JSON and classifying, falling back to printing the raw payload on parse
failure) or print and collect any other non-empty line verbatim.  Returns
the printed lines and the values appended to content_parts. -/
def sseLine (line : List Nat) : Except PyErr (List (List Nat) × List Json) :=
  match line with
  | [] => Except.ok ([], [])
  | _ =>
    let line_str :=
      match utf8DecodeStrict line with
      | some t => t
      | none => utf8DecodeReplace line
    if (strCp "data: ").isPrefixOf line_str then
      let data_content := pyStrip (line_str.drop 6)
      if data_content.isEmpty || data_content == strCp "[DONE]" then Except.ok ([], [])
      else
        match loads data_content with
        | some json_data =>
          match process_streaming_chunk json_data with
          | Except.error e => Except.error e
          | Except.ok (ps, chunk, _) =>
            if chunk.truthy then Except.ok (ps ++ [chunk.pyStr], [chunk])
            else Except.ok (ps, [])
        | none => Except.ok ([data_content], [Json.str data_content])
    else Except.ok ([line_str], [Json.str line_str])

/-- Drain of the SSE line iterator: process lines in order, accumulating
prints and content parts, stopping at the first uncaught exception. -/
def sseDrain : List (List Nat) → List (List Nat) × List Json × Option PyErr
  | [] => ([], [], none)
  | l :: ls =>
    match sseLine l with
    | Except.error e => ([], [], some e)
    | Except.ok (ps, parts) =>
      let rest := sseDrain ls
      (ps ++ rest.1, parts ++ rest.2.1, rest.2.2)

/-- The transport outcomes stream_response can observe: the invocation call
raising, an event-stream response, or a non-streaming body read in chunks.
The content-type dispatch of line 146 is represented by the choice of
constructor. -/
inductive Invocation where
  | failure (msg : List Nat) : Invocation
  | sse (lines : List (List Nat)) : Invocation
  | fallbackBody (chunks : List (List Nat)) : Invocation

/-- The terminal error line printed by the except handler of line 188. -/
def errLine (msg : List Nat) : List Nat := strCp "[error] invoking agent: " ++ msg

/-- Embedding of the try-block of stream_response (lines 136-189), from the
invocation call to the return: any exception raised inside — a transport
failure, a classifier error surfacing through either drain, or the
TypeError from joining non-string parts — is caught by the single except
handler, which prints one terminal error line and returns None.  Returns
the printed lines and the returned value (none models returning None). -/
def stream_response (inv : Invocation) : List (List Nat) × Option (List Nat) :=
  match inv with
  | .failure msg => ([errLine msg], none)
  | .sse lines =>
    let hd := [strCp "[stream] starting..."]
    let dr := sseDrain lines
    match dr.2.2 with
    | some e => (hd ++ dr.1 ++ [errLine e.msg], none)
    | none =>
      let tail := [strCp "\n" ++ List.replicate 60 61, strCp "[stream] complete"]
      match joinStrs dr.2.1 with
      | some s => (hd ++ dr.1 ++ tail, some s)
      | none =>
        (hd ++ dr.1 ++ tail
          ++ [errLine (strCp "sequence item: expected str instance")], none)
  | .fallbackBody chunks =>
    let hd := [strCp "[stream] starting...", strCp "[stream] streaming body detected"]
    let st := handle_non_streaming_response chunks
    match st.err with
    | some e => (hd ++ st.prints ++ [errLine e.msg], none)
    | none => (hd ++ st.prints ++ [strCp "\n[stream] complete"], some st.content)

/-
  UTF-8 facts used by the byte-assembler claims.
-/

/-- Decoding peels one encoded character off the front: for a valid scalar
value, the decoder consumes exactly its encoding unit and continues. -/
theorem utf8DecodeStrict_encodeCp (c : Nat) (hc : ValidCp c) (L : List Nat) :
    utf8DecodeStrict (encodeCp c ++ L) = (utf8DecodeStrict L).map (fun t => c :: t) := by
  obtain ⟨hlt, hsur⟩ := hc
  by_cases h1 : c ≤ 127
  · simp only [encodeCp, if_pos h1, List.cons_append, List.nil_append]
    rw [utf8DecodeStrict.eq_def]
    simp only [if_pos h1]
  · by_cases h2 : c ≤ 2047
    · simp only [encodeCp, if_neg h1, if_pos h2, List.cons_append, List.nil_append]
      rw [utf8DecodeStrict.eq_def]
      simp only [if_neg (show ¬(192 + c / 64 ≤ 127) by omega),
        if_pos (show 194 ≤ 192 + c / 64 ∧ 192 + c / 64 ≤ 223 by omega),
        if_pos (show IsCont (128 + c % 64) from ⟨by omega, by omega⟩)]
      have hv : (192 + c / 64 - 192) * 64 + (128 + c % 64 - 128) = c := by omega
      rw [hv]
    · by_cases h3 : c ≤ 65535
      · simp only [encodeCp, if_neg h1, if_neg h2, if_pos h3, List.cons_append, List.nil_append]
        rw [utf8DecodeStrict.eq_def]
        simp only [if_neg (show ¬(224 + c / 4096 ≤ 127) by omega),
          if_neg (show ¬(194 ≤ 224 + c / 4096 ∧ 224 + c / 4096 ≤ 223) by omega),
          if_pos (show 224 ≤ 224 + c / 4096 ∧ 224 + c / 4096 ≤ 239 by omega),
          if_pos (show Cont3a (224 + c / 4096) (128 + c / 64 % 64) from
            ⟨fun h => by omega, fun h => by omega, fun h h' => ⟨by omega, by omega⟩⟩),
          if_pos (show IsCont (128 + c % 64) from ⟨by omega, by omega⟩)]
        have hv : (224 + c / 4096 - 224) * 4096 + (128 + c / 64 % 64 - 128) * 64
            + (128 + c % 64 - 128) = c := by omega
        rw [hv]
      · simp only [encodeCp, if_neg h1, if_neg h2, if_neg h3, List.cons_append, List.nil_append]
        rw [utf8DecodeStrict.eq_def]
        simp only [if_neg (show ¬(240 + c / 262144 ≤ 127) by omega),
          if_neg (show ¬(194 ≤ 240 + c / 262144 ∧ 240 + c / 262144 ≤ 223) by omega),
          if_neg (show ¬(224 ≤ 240 + c / 262144 ∧ 240 + c / 262144 ≤ 239) by omega),
          if_pos (show 240 ≤ 240 + c / 262144 ∧ 240 + c / 262144 ≤ 244 by omega),
          if_pos (show Cont4a (240 + c / 262144) (128 + c / 4096 % 64) from
            ⟨fun h => by omega, fun h => by omega, fun h h' => ⟨by omega, by omega⟩⟩),
          if_pos (show IsCont (128 + c / 64 % 64) from ⟨by omega, by omega⟩),
          if_pos (show IsCont (128 + c % 64) from ⟨by omega, by omega⟩)]
        have hv : (240 + c / 262144 - 240) * 262144 + (128 + c / 4096 % 64 - 128) * 4096
            + (128 + c / 64 % 64 - 128) * 64 + (128 + c % 64 - 128) = c := by omega
        rw [hv]

/-- A strict prefix of one encoding unit never decodes: the trailing
truncated unit makes the strict decoder fail. -/
theorem utf8DecodeStrict_take_encodeCp (c : Nat) (hc : ValidCp c) (j : Nat)
    (hj0 : 0 < j) (hjlt : j < (encodeCp c).length) :
    utf8DecodeStrict (List.take j (encodeCp c)) = none := by
  obtain ⟨hlt, hsur⟩ := hc
  by_cases h1 : c ≤ 127
  · simp [encodeCp, if_pos h1] at hjlt
    omega
  · by_cases h2 : c ≤ 2047
    · simp only [encodeCp, if_neg h1, if_pos h2] at hjlt ⊢
      have hj : j = 1 := by
        simp only [List.length_cons, List.length_nil] at hjlt
        omega
      subst hj
      simp only [List.take_succ_cons, List.take_zero]
      rw [utf8DecodeStrict.eq_def]
      simp only [if_neg (show ¬(192 + c / 64 ≤ 127) by omega),
        if_pos (show 194 ≤ 192 + c / 64 ∧ 192 + c / 64 ≤ 223 by omega)]
    · by_cases h3 : c ≤ 65535
      · simp only [encodeCp, if_neg h1, if_neg h2, if_pos h3] at hjlt ⊢
        have hj : j = 1 ∨ j = 2 := by
          simp only [List.length_cons, List.length_nil] at hjlt
          omega
        rcases hj with hj | hj
        · subst hj
          simp only [List.take_succ_cons, List.take_zero]
          rw [utf8DecodeStrict.eq_def]
          simp only [if_neg (show ¬(224 + c / 4096 ≤ 127) by omega),
            if_neg (show ¬(194 ≤ 224 + c / 4096 ∧ 224 + c / 4096 ≤ 223) by omega),
            if_pos (show 224 ≤ 224 + c / 4096 ∧ 224 + c / 4096 ≤ 239 by omega)]
        · subst hj
          simp only [List.take_succ_cons, List.take_zero]
          rw [utf8DecodeStrict.eq_def]
          simp only [if_neg (show ¬(224 + c / 4096 ≤ 127) by omega),
            if_neg (show ¬(194 ≤ 224 + c / 4096 ∧ 224 + c / 4096 ≤ 223) by omega),
            if_pos (show 224 ≤ 224 + c / 4096 ∧ 224 + c / 4096 ≤ 239 by omega),
            if_pos (show Cont3a (224 + c / 4096) (128 + c / 64 % 64) from
              ⟨fun h => by omega, fun h => by omega, fun h h' => ⟨by omega, by omega⟩⟩)]
      · simp only [encodeCp, if_neg h1, if_neg h2, if_neg h3] at hjlt ⊢
        have hj : j = 1 ∨ j = 2 ∨ j = 3 := by
          simp only [List.length_cons, List.length_nil] at hjlt
          omega
        have hn1 : ¬(240 + c / 262144 ≤ 127) := by omega
        have hn2 : ¬(194 ≤ 240 + c / 262144 ∧ 240 + c / 262144 ≤ 223) := by omega
        have hn3 : ¬(224 ≤ 240 + c / 262144 ∧ 240 + c / 262144 ≤ 239) := by omega
        have hp4 : 240 ≤ 240 + c / 262144 ∧ 240 + c / 262144 ≤ 244 := by omega
        have hc4 : Cont4a (240 + c / 262144) (128 + c / 4096 % 64) :=
          ⟨fun h => by omega, fun h => by omega, fun h h' => ⟨by omega, by omega⟩⟩
        rcases hj with hj | hj | hj
        · subst hj
          simp only [List.take_succ_cons, List.take_zero]
          rw [utf8DecodeStrict.eq_def]
          simp only [if_neg hn1, if_neg hn2, if_neg hn3, if_pos hp4]
        · subst hj
          simp only [List.take_succ_cons, List.take_zero]
          rw [utf8DecodeStrict.eq_def]
          simp only [if_neg hn1, if_neg hn2, if_neg hn3, if_pos hp4, if_pos hc4]
        · subst hj
          simp only [List.take_succ_cons, List.take_zero]
          rw [utf8DecodeStrict.eq_def]
          simp only [if_neg hn1, if_neg hn2, if_neg hn3, if_pos hp4, if_pos hc4,
            if_pos (show IsCont (128 + c / 64 % 64) from ⟨by omega, by omega⟩)]

/-- Encoding distributes over cons. -/
theorem utf8Encode_cons (c : Nat) (s : List Nat) :
    utf8Encode (c :: s) = encodeCp c ++ utf8Encode s := by
  simp [utf8Encode]

/-- Strict decoding inverts encoding on valid texts. -/
theorem utf8DecodeStrict_encode (s : List Nat) (h : ∀ c ∈ s, ValidCp c) :
    utf8DecodeStrict (utf8Encode s) = some s := by
  induction s with
  | nil => rfl
  | cons c s ih =>
    rw [utf8Encode_cons, utf8DecodeStrict_encodeCp c (h c (List.mem_cons_self c s)),
      ih (fun x hx => h x (List.mem_cons_of_mem c hx))]
    rfl

/-- Decoding a byte-level front part of an encoded text: either the cut
lands inside a unit and strict decoding fails, or the cut is aligned on a
character boundary, the front part decodes to the corresponding character
front and the remainder is the encoding of the remaining characters. -/
theorem utf8_take_split (s : List Nat) (h : ∀ c ∈ s, ValidCp c) (i : Nat) :
    utf8DecodeStrict (List.take i (utf8Encode s)) = none ∨
    ∃ k, utf8DecodeStrict (List.take i (utf8Encode s)) = some (List.take k s) ∧
      List.drop i (utf8Encode s) = utf8Encode (List.drop k s) := by
  induction s generalizing i with
  | nil =>
    right
    refine ⟨0, ?_, ?_⟩
    · show utf8DecodeStrict (List.take i []) = some (List.take 0 [])
      rw [List.take_nil]
      rfl
    · show List.drop i [] = utf8Encode (List.drop 0 [])
      rw [List.drop_nil]
      rfl
  | cons c s ih =>
    rcases Nat.eq_zero_or_pos i with hi | hi
    · subst hi
      right
      refine ⟨0, ?_, ?_⟩
      · rw [List.take_zero, List.take_zero]
        rfl
      · rw [List.drop_zero, List.drop_zero]
    · have hcv : ValidCp c := h c (List.mem_cons_self c s)
      have hs : ∀ x ∈ s, ValidCp x := fun x hx => h x (List.mem_cons_of_mem c hx)
      rw [utf8Encode_cons]
      by_cases him : i < (encodeCp c).length
      · left
        rw [List.take_append_eq_append_take]
        have h0 : i - (encodeCp c).length = 0 := by omega
        rw [h0, List.take_zero, List.append_nil]
        exact utf8DecodeStrict_take_encodeCp c hcv i hi him
      · push_neg at him
        rw [List.take_append_eq_append_take, List.drop_append_eq_append_drop,
          List.take_of_length_le him, List.drop_eq_nil_of_le him, List.nil_append,
          utf8DecodeStrict_encodeCp c hcv]
        rcases ih hs (i - (encodeCp c).length) with hnone | ⟨k, hk1, hk2⟩
        · left
          rw [hnone]
          rfl
        · right
          refine ⟨k + 1, ?_, ?_⟩
          · rw [hk1, List.take_succ_cons]
            rfl
          · rw [hk2, List.drop_succ_cons]

/-- Strict decoding skips over a run of the ASCII byte 97. -/
theorem utf8DecodeStrict_rep97 (n : Nat) (L : List Nat) :
    utf8DecodeStrict (List.replicate n 97 ++ L)
      = (utf8DecodeStrict L).map (fun t => List.replicate n 97 ++ t) := by
  induction n with
  | zero =>
    simp only [List.replicate_zero, List.nil_append]
    cases utf8DecodeStrict L <;> rfl
  | succ n ih =>
    rw [List.replicate_succ, List.cons_append, utf8DecodeStrict.eq_def]
    simp only [if_pos (show (97 : Nat) ≤ 127 by omega), ih]
    cases utf8DecodeStrict L <;> rfl

/-- Replace-mode decoding skips over a run of the ASCII byte 97. -/
theorem utf8DecodeReplace_rep97 (n : Nat) (L : List Nat) :
    utf8DecodeReplace (List.replicate n 97 ++ L)
      = List.replicate n 97 ++ utf8DecodeReplace L := by
  induction n with
  | zero => simp
  | succ n ih =>
    rw [List.replicate_succ, List.cons_append, utf8DecodeReplace.eq_def]
    simp only [if_pos (show (97 : Nat) ≤ 127 by omega), ih]
    rfl

/-- Encoding maps a run of the ASCII character 97 to the same bytes. -/
theorem utf8Encode_rep97 (n : Nat) (L : List Nat) :
    utf8Encode (List.replicate n 97 ++ L) = List.replicate n 97 ++ utf8Encode L := by
  induction n with
  | zero => simp
  | succ n ih =>
    rw [List.replicate_succ, List.cons_append, utf8Encode_cons, ih]
    rfl

/-
  Claim C6.
-/

/-- C6 (amended): for every valid text, splitting its UTF-8 encoding at any
byte boundary into two chunks and feeding them through the byte assembler
with the end-of-stream flush reproduces the text exactly, provided the
first chunk does not exceed 4096 bytes; beyond that bound the oversized
buffer is flushed lossily and the round trip can fail (see the
counterexample).  The assembler functions are total, so no exception can
occur. -/
theorem c6_split_roundtrip_amended (s : List Nat) (h : ∀ c ∈ s, ValidCp c)
    (i : Nat) (hi : i ≤ 4096) :
    assembleAll [List.take i (utf8Encode s), List.drop i (utf8Encode s)] = s := by
  have hlt : ¬(List.take i (utf8Encode s)).length > 4096 := by
    have := List.length_take_le i (utf8Encode s)
    omega
  rcases utf8_take_split s h i with hnone | ⟨k, hk1, hk2⟩
  · have hfeed1 : baFeed [] (List.take i (utf8Encode s)) = (List.take i (utf8Encode s), []) := by
      simp only [baFeed, List.nil_append, hnone, if_neg hlt]
    have hfeed2 : baFeed (List.take i (utf8Encode s)) (List.drop i (utf8Encode s)) = ([], s) := by
      simp only [baFeed, List.take_append_drop, utf8DecodeStrict_encode s h]
    simp [assembleAll, baRun, hfeed1, hfeed2, baFlush]
  · have hfeed1 : baFeed [] (List.take i (utf8Encode s)) = ([], List.take k s) := by
      simp only [baFeed, List.nil_append, hk1]
    have hdrop : utf8DecodeStrict (List.drop i (utf8Encode s)) = some (List.drop k s) := by
      rw [hk2]
      exact utf8DecodeStrict_encode _ (fun x hx => h x (List.mem_of_mem_drop hx))
    have hfeed2 : baFeed [] (List.drop i (utf8Encode s)) = ([], List.drop k s) := by
      simp only [baFeed, List.nil_append, hdrop]
    simp [assembleAll, baRun, hfeed1, hfeed2, baFlush]

/-- C6 witness: the two-character text h followed by the euro sign, split
in the middle of the three-byte euro encoding, is reproduced exactly. -/
theorem c6_split_roundtrip_amended_witness :
    (∀ c ∈ [104, 8364], ValidCp c) ∧ 2 ≤ 4096 ∧
    assembleAll [List.take 2 (utf8Encode [104, 8364]), List.drop 2 (utf8Encode [104, 8364])]
      = [104, 8364] :=
  ⟨by decide, by omega, c6_split_roundtrip_amended [104, 8364] (by decide) 2 (by omega)⟩

/-- The 4098-character text of the C6 counterexample: 4097 ASCII characters
followed by the euro sign, whose encoding occupies 4100 bytes. -/
def c6s : List Nat := List.replicate 4097 97 ++ [8364]

/-- C6 (counterexample): splitting the encoding of a valid text at byte
4098, in the middle of the final three-byte character, does not reproduce
the text: the first chunk fails to decode, exceeds the 4096-byte bound and
is flushed lossily with a replacement character, and the orphaned
continuation bytes of the second chunk become two more replacement
characters at the end-of-stream flush.  This refutes the claim that every
split of every valid text round-trips. -/
theorem c6_large_split_lossy_cex :
    (∀ c ∈ c6s, ValidCp c) ∧
    assembleAll [List.take 4098 (utf8Encode c6s), List.drop 4098 (utf8Encode c6s)] ≠ c6s := by
  constructor
  · intro c hc
    rcases List.mem_append.1 hc with hc | hc
    · rw [List.eq_of_mem_replicate hc]
      exact ⟨by omega, by omega⟩
    · rw [List.mem_singleton.1 hc]
      exact ⟨by omega, by omega⟩
  · have hrlen : (List.replicate 4097 (97 : Nat)).length = 4097 := List.length_replicate 4097 97
    have hE : utf8Encode c6s = List.replicate 4097 97 ++ [226, 130, 172] := by
      rw [c6s, utf8Encode_rep97]
      rfl
    have htake : List.take 4098 (utf8Encode c6s) = List.replicate 4097 97 ++ [226] := by
      rw [hE, List.take_append_eq_append_take,
        List.take_of_length_le (by rw [hrlen]; omega), hrlen]
      rfl
    have hdrop : List.drop 4098 (utf8Encode c6s) = [130, 172] := by
      rw [hE, List.drop_append_eq_append_drop,
        List.drop_eq_nil_of_le (by rw [hrlen]; omega), hrlen]
      rfl
    have hdec : utf8DecodeStrict (List.replicate 4097 97 ++ [226]) = none := by
      rw [utf8DecodeStrict_rep97]
      rfl
    have hrep : utf8DecodeReplace (List.replicate 4097 97 ++ [226])
        = List.replicate 4097 97 ++ [65533] := by
      rw [utf8DecodeReplace_rep97]
      rfl
    have hf1 : baFeed [] (List.replicate 4097 97 ++ [226])
        = ([], List.replicate 4097 97 ++ [65533]) := by
      simp only [baFeed, List.nil_append, hdec]
      rw [if_pos]
      · rw [hrep]
      · rw [List.length_append, hrlen]
        omega
    have hf2 : baFeed [] [130, 172] = ([130, 172], []) := rfl
    have hfl : baFlush [130, 172] = [65533, 65533] := rfl
    rw [htake, hdrop]
    simp only [assembleAll, baRun, hf1, hf2, hfl]
    intro heq
    have hlen := congrArg List.length heq
    simp only [c6s, List.length_append, hrlen, List.nil_append, List.append_nil,
      List.length_cons, List.length_nil] at hlen
    omega

/-
  Claim C4.
-/

/-- C4 (amended): between two feeds, the pending byte buffer is all or
nothing: after a feed it is either empty (the whole buffer decoded, or an
oversized buffer was flushed lossily), or it holds the entire undecodable
accumulated byte sequence of at most 4096 bytes, with nothing emitted.  No
longest-valid-front extraction takes place, so the retained buffer may
well contain complete valid encoding units (see the counterexample). -/
theorem c4_pending_all_or_nothing (pending chunk : List Nat) :
    (baFeed pending chunk).1 = [] ∨
    (baFeed pending chunk = (pending ++ chunk, []) ∧
      utf8DecodeStrict (pending ++ chunk) = none ∧
      (pending ++ chunk).length ≤ 4096) := by
  cases hdec : utf8DecodeStrict (pending ++ chunk) with
  | some t =>
    left
    simp [baFeed, hdec]
  | none =>
    by_cases hlen : (pending ++ chunk).length > 4096
    · left
      simp only [baFeed, hdec]
      rw [if_pos hlen]
    · right
      refine ⟨?_, rfl, by omega⟩
      simp only [baFeed, hdec]
      rw [if_neg hlen]

/-- C4 (counterexample): feeding the two bytes 97 and 195 (an ASCII
character followed by the first byte of a two-byte unit) leaves a pending
buffer holding both bytes, and its first byte alone is a complete valid
encoding unit decoding to the character 97.  This refutes the claim that
the pending buffer only ever holds 0 to N-1 bytes of one partially
received unit and never a complete valid unit. -/
theorem c4_pending_complete_unit_cex :
    baFeed [] [97, 195] = ([97] ++ [195], []) ∧ utf8DecodeStrict [97] = some [97] :=
  ⟨rfl, rfl⟩

/-
  Classifier claims C1, C7, C8, C10.
-/

/-- The eleven key names that select one of the nine recognized rules. -/
def recognizedKeys : List (List Nat) :=
  [kToolUse, kToolCall, kToolResult, kThinking, kReasoning, kStep,
   kStatus, kContent, kDelta, kText, kEvent]

/-- An object none of whose keys is recognized fails every key test. -/
theorem hasKey_eq_false_of (fs : JObj) (k : List Nat) (hk : k ∈ recognizedKeys)
    (h : ∀ p ∈ fs.fieldsList, p.1 ∉ recognizedKeys) : hasKey fs k = false := by
  rw [hasKey, List.any_eq_false]
  intro p hp
  simp only [beq_iff_eq]
  intro heq
  exact h p hp (heq ▸ hk)

/-- The fragment the delta rule returns when it fires: the content value of
a delta object, or the delta string itself. -/
def deltaFragVal : Json → Json
  | .obj df => dIndex df kContent
  | .str s => Json.str s
  | _ => Json.null

/-- C1 (amended): the nine checks are evaluated in the listed order against
object shape and the first firing rule returns, except that the delta
check only returns when the delta value is an object containing a content
key or a string; otherwise control falls through to the later text and
event checks (see the counterexample).  Under the amendment, an object
carrying a delta key of one of the returning shapes, and none of the eight
keys checked earlier, is handled by the delta rule alone: no display
output, and the fragment determined by the delta value. -/
theorem c1_delta_first_match_amended (fs : JObj)
    (h1 : hasKey fs kToolUse = false) (h2 : hasKey fs kToolCall = false)
    (h3 : hasKey fs kToolResult = false) (h4 : hasKey fs kThinking = false)
    (h5 : hasKey fs kReasoning = false) (h6 : hasKey fs kStep = false)
    (h7 : hasKey fs kStatus = false) (h8 : hasKey fs kContent = false)
    (h9 : hasKey fs kDelta = true)
    (h10 : (∃ df, dIndex fs kDelta = Json.obj df ∧ hasKey df kContent = true)
      ∨ (∃ s, dIndex fs kDelta = Json.str s)) :
    process_streaming_chunk (Json.obj fs)
      = Except.ok ([], deltaFragVal (dIndex fs kDelta), Rule.delta) := by
  rcases h10 with ⟨df, hdf, hdfc⟩ | ⟨s, hds⟩
  · simp [process_streaming_chunk, h1, h2, h3, h4, h5, h6, h7, h8, h9, hdf, hdfc, deltaFragVal]
  · simp [process_streaming_chunk, h1, h2, h3, h4, h5, h6, h7, h8, h9, hds, deltaFragVal]

/-- The delta object used by the C1 witness. -/
def c1wDelta : JObj := jobj [(kContent, Json.str (strCp "X"))]

/-- The input object of the C1 witness: a single delta key holding an
object with a content key. -/
def c1wFs : JObj := jobj [(kDelta, Json.obj c1wDelta)]

/-- C1 witness: a pure delta object is handled by the delta rule, with the
content value as fragment and no display output. -/
theorem c1_delta_first_match_amended_witness :
    process_streaming_chunk (Json.obj c1wFs)
      = Except.ok ([], deltaFragVal (dIndex c1wFs kDelta), Rule.delta) :=
  c1_delta_first_match_amended c1wFs rfl rfl rfl rfl rfl rfl rfl rfl rfl
    (Or.inl ⟨c1wDelta, rfl, rfl⟩)

/-- C1 (counterexample): an object with a delta key holding the number 5
and a text key holding a string is handled by the text rule, not the delta
rule: the delta check fires on the key but returns nothing for a numeric
delta value, and control falls through to the text check, which returns
the text value.  This refutes the claim that an object containing the
delta key is handled by the delta rule alone whatever the type of the
delta value. -/
theorem c1_delta_falls_through_cex :
    process_streaming_chunk (Json.obj (jobj [(kDelta, Json.num 5), (kText, Json.str (strCp "hi"))]))
      = Except.ok ([], Json.str (strCp "hi"), Rule.textField)
    ∧ Rule.textField ≠ Rule.delta :=
  ⟨rfl, by decide⟩

/-- C7 (confirmed): a tool_result event whose result object carries a
string content, classified when no tool-usage key precedes it, prints the
completion marker, then the content unchanged when its length is at most
200 and exactly its first 200 characters followed by three dots when
longer, then the continuation line; the returned fragment is the empty
string, which is falsy and so never reaches the transcript. -/
theorem c7_tool_result_truncation (fs rf : JObj) (c : List Nat)
    (h1 : hasKey fs kToolUse = false) (h2 : hasKey fs kToolCall = false)
    (h3 : hasKey fs kToolResult = true)
    (h4 : dIndex fs kToolResult = Json.obj rf)
    (h5 : hasKey rf kContent = true)
    (h6 : dIndex rf kContent = Json.str c) :
    process_streaming_chunk (Json.obj fs) =
      Except.ok
        ([strCp "\n[tool] completed",
          strCp "[result] " ++ (if c.length > 200 then c.take 200 ++ strCp "..." else c),
          strCp "[status] agent continuing...\n"],
         Json.str [], Rule.toolResult)
    ∧ Json.truthy (Json.str []) = false := by
  refine ⟨?_, rfl⟩
  by_cases hlen : c.length > 200
  · simp [process_streaming_chunk, h1, h2, h3, h4, h5, h6, hlen]
  · simp [process_streaming_chunk, h1, h2, h3, h4, h5, h6, hlen]

/-- Result object of the short C7 witness. -/
def c7rfShort : JObj := jobj [(kContent, Json.str (strCp "ok"))]

/-- Input object of the short C7 witness. -/
def c7fsShort : JObj := jobj [(kToolResult, Json.obj c7rfShort)]

/-- The 201-character content string of the long C7 witness. -/
def c7longStr : List Nat := List.replicate 201 97

/-- Result object of the long C7 witness. -/
def c7rfLong : JObj := jobj [(kContent, Json.str c7longStr)]

/-- Input object of the long C7 witness. -/
def c7fsLong : JObj := jobj [(kToolResult, Json.obj c7rfLong)]

/-- C7 witness: the truncation behaviour at a 2-character content and at a
201-character content. -/
theorem c7_tool_result_truncation_witness :
    (process_streaming_chunk (Json.obj c7fsShort) =
      Except.ok
        ([strCp "\n[tool] completed",
          strCp "[result] "
            ++ (if (strCp "ok").length > 200 then (strCp "ok").take 200 ++ strCp "..." else strCp "ok"),
          strCp "[status] agent continuing...\n"],
         Json.str [], Rule.toolResult)
      ∧ Json.truthy (Json.str []) = false)
    ∧ (process_streaming_chunk (Json.obj c7fsLong) =
      Except.ok
        ([strCp "\n[tool] completed",
          strCp "[result] "
            ++ (if c7longStr.length > 200 then c7longStr.take 200 ++ strCp "..." else c7longStr),
          strCp "[status] agent continuing...\n"],
         Json.str [], Rule.toolResult)
      ∧ Json.truthy (Json.str []) = false) :=
  ⟨c7_tool_result_truncation c7fsShort c7rfShort (strCp "ok") rfl rfl rfl rfl rfl rfl,
   c7_tool_result_truncation c7fsLong c7rfLong c7longStr rfl rfl rfl rfl rfl rfl⟩

/-- C8 (confirmed): classifying an object all of whose keys lie outside
the recognized ones produces no printed output, returns None, reaches no
raising code path, and the falsy None contributes nothing to the
transcript. -/
theorem c8_unknown_shape_safe (fs : JObj) (h : ∀ p ∈ fs.fieldsList, p.1 ∉ recognizedKeys) :
    process_streaming_chunk (Json.obj fs) = Except.ok ([], Json.null, Rule.noMatch)
      ∧ Json.truthy Json.null = false := by
  have h1 := hasKey_eq_false_of fs kToolUse (by simp [recognizedKeys]) h
  have h2 := hasKey_eq_false_of fs kToolCall (by simp [recognizedKeys]) h
  have h3 := hasKey_eq_false_of fs kToolResult (by simp [recognizedKeys]) h
  have h4 := hasKey_eq_false_of fs kThinking (by simp [recognizedKeys]) h
  have h5 := hasKey_eq_false_of fs kReasoning (by simp [recognizedKeys]) h
  have h6 := hasKey_eq_false_of fs kStep (by simp [recognizedKeys]) h
  have h7 := hasKey_eq_false_of fs kStatus (by simp [recognizedKeys]) h
  have h8 := hasKey_eq_false_of fs kContent (by simp [recognizedKeys]) h
  have h9 := hasKey_eq_false_of fs kDelta (by simp [recognizedKeys]) h
  have h10 := hasKey_eq_false_of fs kText (by simp [recognizedKeys]) h
  have h11 := hasKey_eq_false_of fs kEvent (by simp [recognizedKeys]) h
  refine ⟨?_, rfl⟩
  simp [process_streaming_chunk, h1, h2, h3, h4, h5, h6, h7, h8, h9, h10, h11]

/-- C8 witness: an object with the single unrecognized key foo. -/
theorem c8_unknown_shape_safe_witness :
    process_streaming_chunk (Json.obj (jobj [(strCp "foo", Json.num 1)]))
      = Except.ok ([], Json.null, Rule.noMatch)
    ∧ Json.truthy Json.null = false :=
  c8_unknown_shape_safe (jobj [(strCp "foo", Json.num 1)]) (by decide)

/-- C10 (confirmed): a recognized key whose value is not an object can
make process_streaming_chunk raise: a tool_use key holding a string makes
the name lookup call attribute access on a str value, and a step key
holding the number 3 does the same on an int value; both raise
AttributeError instead of returning. -/
theorem c10_recognized_key_wrong_type_raises :
    process_streaming_chunk (Json.obj (jobj [(kToolUse, Json.str (strCp "x"))]))
      = Except.error (PyErr.attributeError (noGetAttrMsg (strCp "str")))
    ∧ process_streaming_chunk (Json.obj (jobj [(kStep, Json.num 3)]))
      = Except.error (PyErr.attributeError (noGetAttrMsg (strCp "int"))) :=
  ⟨rfl, rfl⟩

/-
  Fallback-loop facts and claim C2.
-/

/-- Once an exception is propagating, a loop step does nothing. -/
theorem fbStep_err_some (st : FbState) (c : List Nat) (h : st.err.isSome) :
    fbStep st c = st := by
  simp [fbStep, h]

/-- A loop step on a live state advances the content and pending-byte
buffers exactly as the byte assembler does, whatever the parse and
classification outcome. -/
theorem fbStep_content_byteBuf (st : FbState) (c : List Nat) (he : st.err = none) :
    (fbStep st c).content = st.content ++ (baFeed st.byteBuf c).2
    ∧ (fbStep st c).byteBuf = (baFeed st.byteBuf c).1 := by
  have hs : st.err.isSome = false := by rw [he]; rfl
  simp only [fbStep, hs, Bool.false_eq_true, if_false]
  cases loads (st.jsonBuf ++ (baFeed st.byteBuf c).2) with
  | none => exact ⟨rfl, rfl⟩
  | some v =>
    dsimp only
    cases process_streaming_chunk v with
    | error e => exact ⟨rfl, rfl⟩
    | ok r =>
      obtain ⟨ps, ret, ru⟩ := r
      exact ⟨rfl, rfl⟩

/-- Once an exception is propagating, the whole rest of the loop does
nothing. -/
theorem fbRun_err_some (cs : List (List Nat)) (st : FbState) (h : st.err.isSome) :
    cs.foldl fbStep st = st := by
  induction cs with
  | nil => rfl
  | cons c cs ih =>
    rw [List.foldl_cons, fbStep_err_some st c h]
    exact ih

/-- Over any chunk sequence that completes without an exception, the loop
advances content and pending bytes exactly as the byte assembler does. -/
theorem fbRun_content_byteBuf (cs : List (List Nat)) (st : FbState) (he : st.err = none)
    (hf : (cs.foldl fbStep st).err = none) :
    (cs.foldl fbStep st).content = st.content ++ (baRun st.byteBuf cs).2
    ∧ (cs.foldl fbStep st).byteBuf = (baRun st.byteBuf cs).1 := by
  induction cs generalizing st with
  | nil => simp [baRun]
  | cons c cs ih =>
    rw [List.foldl_cons] at hf ⊢
    have hstep := fbStep_content_byteBuf st c he
    have hnext : (fbStep st c).err = none := by
      by_contra hx
      have hsome : (fbStep st c).err.isSome := by
        cases hh : (fbStep st c).err
        · exact absurd hh hx
        · rfl
      rw [fbRun_err_some cs _ hsome] at hf
      rw [hf] at hsome
      exact Bool.noConfusion hsome
    obtain ⟨ihc, ihb⟩ := ih (fbStep st c) hnext hf
    constructor
    · rw [ihc, hstep.1, hstep.2]
      simp [baRun, List.append_assoc]
    · rw [ihb, hstep.2]
      simp [baRun]

/-- C2 (amended): when the fallback drain completes without an exception,
the value handle_non_streaming_response returns is the full decoded raw
stream text, the byte-assembler output over all chunks including the
end-of-stream flush — not the concatenation of classified fragments.
Fragments are only printed; they are never accumulated into the returned
buffer (see the counterexample). -/
theorem c2_return_raw_decoded_amended (chunks : List (List Nat))
    (h : (handle_non_streaming_response chunks).err = none) :
    (handle_non_streaming_response chunks).content = assembleAll chunks := by
  rw [handle_non_streaming_response] at h ⊢
  have hF : (chunks.foldl fbStep fbInit).err = none := by
    by_contra hx
    have hsome : (chunks.foldl fbStep fbInit).err.isSome := by
      cases hh : (chunks.foldl fbStep fbInit).err
      · exact absurd hh hx
      · rfl
    rw [fbFinish, if_pos hsome] at h
    rw [h] at hsome
    exact Bool.noConfusion hsome
  have hfin : (fbFinish (chunks.foldl fbStep fbInit)).content
      = (chunks.foldl fbStep fbInit).content ++ baFlush (chunks.foldl fbStep fbInit).byteBuf := by
    have hs : (chunks.foldl fbStep fbInit).err.isSome = false := by rw [hF]; rfl
    simp [fbFinish, hs]
  obtain ⟨hc, hb⟩ := fbRun_content_byteBuf chunks fbInit rfl hF
  rw [hfin, hc, hb]
  simp [assembleAll, fbInit]

/-- C2 witness: a single two-byte ASCII chunk that never parses as JSON is
returned as the raw decoded stream. -/
theorem c2_return_raw_decoded_amended_witness :
    (handle_non_streaming_response [[104, 105]]).content = assembleAll [[104, 105]] :=
  c2_return_raw_decoded_amended [[104, 105]] rfl

/-- The single fallback chunk of the C2 counterexample, the bytes of a
JSON object with a text key holding the string hi. -/
def c2chunk : List Nat := [123, 34, 116, 101, 120, 116, 34, 58, 32, 34, 104, 105, 34, 125]

/-- C2 (counterexample): feeding that chunk parses one value, whose
classification yields the fragment hi, and leaves no unparsed accumulator
text, so the claimed return value — the Transcript — is the two-character
string hi; but the function returns the fourteen-character raw JSON text
of the chunk.  The returned value is the raw decoded byte stream, not the
fragment concatenation. -/
theorem c2_return_not_transcript_cex :
    (handle_non_streaming_response [c2chunk]).err = none
    ∧ (handle_non_streaming_response [c2chunk]).classified
        = [Json.obj (jobj [(kText, Json.str (strCp "hi"))])]
    ∧ process_streaming_chunk (Json.obj (jobj [(kText, Json.str (strCp "hi"))]))
        = Except.ok ([], Json.str (strCp "hi"), Rule.textField)
    ∧ (handle_non_streaming_response [c2chunk]).jsonBuf = []
    ∧ (handle_non_streaming_response [c2chunk]).content = c2chunk
    ∧ c2chunk ≠ strCp "hi" :=
  ⟨rfl, rfl, rfl, rfl, rfl, by decide⟩

/-
  Claim C3.
-/

/-- The decoded text of one standalone chunk (empty when it fails). -/
def decOf (c : List Nat) : List Nat := (utf8DecodeStrict c).getD []

/-- The concatenated decoded text of a chunk sequence. -/
def decCat (cs : List (List Nat)) : List Nat := (cs.map decOf).flatten

/-- decCat unfolds over cons. -/
theorem decCat_cons (c : List Nat) (cs : List (List Nat)) :
    decCat (c :: cs) = decOf c ++ decCat cs := rfl

/-- decCat distributes over append. -/
theorem decCat_append (xs ys : List (List Nat)) :
    decCat (xs ++ ys) = decCat xs ++ decCat ys := by
  simp [decCat]

/-- While no chunk-boundary parse of the accumulator succeeds, the
fallback loop keeps a clean shape: the pending bytes stay empty, the
accumulator carries exactly the decoded text so far, and nothing is
classified. -/
theorem fbRun_nice (cs : List (List Nat)) (st : FbState)
    (hb : st.byteBuf = []) (he : st.err = none) (hcl : st.classified = [])
    (h1 : ∀ c ∈ cs, (utf8DecodeStrict c).isSome)
    (h2 : ∀ k, 0 < k → k ≤ cs.length → loads (st.jsonBuf ++ decCat (cs.take k)) = none) :
    cs.foldl fbStep st =
      { content := st.content ++ decCat cs, jsonBuf := st.jsonBuf ++ decCat cs,
        byteBuf := [], prints := st.prints, classified := [], err := none } := by
  induction cs generalizing st with
  | nil =>
    obtain ⟨co, jb, bb, pr, cl, er⟩ := st
    simp only at hb he hcl
    subst hb
    subst he
    subst hcl
    simp [decCat]
  | cons c cs ih =>
    have hdec := h1 c (List.mem_cons_self c cs)
    obtain ⟨t, ht⟩ := Option.isSome_iff_exists.mp hdec
    have hfeed : baFeed st.byteBuf c = ([], t) := by
      rw [hb]
      simp only [baFeed, List.nil_append, ht]
    have hl : loads (st.jsonBuf ++ t) = none := by
      have hh := h2 1 (by omega) (by simp)
      rw [List.take_succ_cons, List.take_zero, decCat_cons] at hh
      simpa [decCat, decOf, ht] using hh
    have hs : st.err.isSome = false := by rw [he]; rfl
    have hstep : fbStep st c =
        { st with content := st.content ++ t, jsonBuf := st.jsonBuf ++ t, byteBuf := [] } := by
      simp only [fbStep, hs, Bool.false_eq_true, if_false, hfeed]
      simp only [hl]
    rw [List.foldl_cons, hstep]
    have hrec := ih
      { st with content := st.content ++ t, jsonBuf := st.jsonBuf ++ t, byteBuf := [] }
      rfl he hcl
      (fun x hx => h1 x (List.mem_cons_of_mem c hx))
      (by
        intro k hk0 hk1
        have hh := h2 (k + 1) (by omega) (by simp; omega)
        rw [List.take_succ_cons, decCat_cons] at hh
        have hteq : decOf c = t := by simp [decOf, ht]
        rw [hteq] at hh
        simpa [List.append_assoc] using hh)
    rw [hrec]
    simp [decCat_cons, decOf, ht, List.append_assoc]

/-- A loop step whose accumulator parse succeeds records exactly one more
classified value, whatever the classification outcome. -/
theorem fbStep_classified_parse (st : FbState) (c t : List Nat) (v : Json)
    (he : st.err = none) (hb : st.byteBuf = [])
    (ht : utf8DecodeStrict c = some t)
    (hl : loads (st.jsonBuf ++ t) = some v) :
    (fbStep st c).classified = st.classified ++ [v] := by
  have hs : st.err.isSome = false := by rw [he]; rfl
  have hfeed : baFeed st.byteBuf c = ([], t) := by
    rw [hb]
    simp only [baFeed, List.nil_append, ht]
  simp only [fbStep, hs, Bool.false_eq_true, if_false, hfeed, hl]
  cases process_streaming_chunk v with
  | error e => rfl
  | ok r =>
    obtain ⟨ps, ret, ru⟩ := r
    rfl

/-- The end-of-stream flush never classifies anything. -/
theorem fbFinish_classified (st : FbState) : (fbFinish st).classified = st.classified := by
  by_cases h : st.err.isSome
  · simp [fbFinish, h]
  · simp [fbFinish, h]

/-- The empty accumulator never parses. -/
theorem loads_nil : loads [] = none := rfl

/-- C3 (amended): on the fallback path, feeding a JSON document in slices
produces a classification exactly once, after the final slice, provided no
strict chunk-boundary front of the decoded stream is itself a complete
JSON document — which holds for objects, arrays and strings, but can fail
for top-level numbers, where a slice landing mid-number leaves a front
that already parses (see the counterexample). -/
theorem c3_single_parse_amended (cs : List (List Nat)) (v : Json)
    (h1 : ∀ c ∈ cs, (utf8DecodeStrict c).isSome)
    (h2 : ∀ k, 0 < k → k < cs.length → loads (decCat (cs.take k)) = none)
    (h3 : loads (decCat cs) = some v) :
    (handle_non_streaming_response cs).classified = [v]
    ∧ ∀ k, k < cs.length → ((cs.take k).foldl fbStep fbInit).classified = [] := by
  have hpart2 : ∀ k, k < cs.length → ((cs.take k).foldl fbStep fbInit).classified = [] := by
    intro k hk
    have hnice := fbRun_nice (cs.take k) fbInit rfl rfl rfl
      (fun x hx => h1 x (List.take_subset k cs hx))
      (by
        intro j hj0 hj1
        rw [List.take_take]
        have hjk : min j k = j := by
          rw [List.length_take] at hj1
          omega
        rw [hjk]
        have hjlt : j < cs.length := by
          rw [List.length_take] at hj1
          omega
        simpa [fbInit] using h2 j hj0 hjlt)
    rw [hnice]
  refine ⟨?_, hpart2⟩
  have hne : cs ≠ [] := by
    intro hnil
    rw [hnil] at h3
    rw [show decCat [] = [] from rfl, loads_nil] at h3
    exact Option.noConfusion h3
  have hsplit : cs.dropLast ++ [cs.getLast hne] = cs := List.dropLast_append_getLast hne
  have hlast := h1 (cs.getLast hne) (List.getLast_mem hne)
  obtain ⟨t, ht⟩ := Option.isSome_iff_exists.mp hlast
  have hlenA : cs.dropLast.length = cs.length - 1 := List.length_dropLast cs
  have hniceA := fbRun_nice cs.dropLast fbInit rfl rfl rfl
    (fun x hx => h1 x (List.dropLast_subset cs hx))
    (by
      intro j hj0 hj1
      rw [hlenA] at hj1
      have hjt : cs.dropLast.take j = cs.take j := by
        rw [List.dropLast_eq_take, List.take_take]
        have hmin : min j (cs.length - 1) = j := by omega
        rw [hmin]
      rw [hjt]
      have hjlt : j < cs.length := by omega
      simpa [fbInit] using h2 j hj0 hjlt)
  have hfold : cs.foldl fbStep fbInit
      = fbStep (cs.dropLast.foldl fbStep fbInit) (cs.getLast hne) := by
    conv_lhs => rw [← hsplit]
    rw [List.foldl_append, List.foldl_cons, List.foldl_nil]
  have hjson : decCat cs.dropLast ++ t = decCat cs := by
    conv_rhs => rw [← hsplit]
    rw [decCat_append]
    simp [decCat, decOf, ht]
  rw [handle_non_streaming_response, fbFinish_classified, hfold, hniceA,
    fbStep_classified_parse _ _ t v rfl rfl ht (by simpa [fbInit, hjson] using h3)]
  rfl

/-- The two slices of the C3 witness: the bytes of one JSON object split
inside its key string. -/
def c3wChunks : List (List Nat) := [[123, 34, 97], [34, 58, 49, 125]]

/-- The value the C3 witness classifies once: the object binding key a to 1. -/
def c3wVal : Json := Json.obj (jobj [(strCp "a", Json.num 1)])

/-- C3 witness: the object document split mid-string classifies exactly
once, after the final slice, and not after the first. -/
theorem c3_single_parse_amended_witness :
    (handle_non_streaming_response c3wChunks).classified = [c3wVal]
    ∧ ((c3wChunks.take 1).foldl fbStep fbInit).classified = [] :=
  ⟨(c3_single_parse_amended c3wChunks c3wVal (by decide)
      (fun k hk0 hk1 => by
        have hk : k = 1 := by
          simp [c3wChunks] at hk1
          omega
        subst hk
        rfl)
      rfl).1,
   (c3_single_parse_amended c3wChunks c3wVal (by decide)
      (fun k hk0 hk1 => by
        have hk : k = 1 := by
          simp [c3wChunks] at hk1
          omega
        subst hk
        rfl)
      rfl).2 1 (by decide)⟩

/-- C3 (counterexample): the valid JSON document 123 fed in the two slices
12 and 3 is classified after the first slice already — json.loads accepts
the accumulator content 12 — and then classified a second time for the
remainder 3.  This refutes the claim that a classification happens exactly
once, after the final slice and never earlier, for every valid JSON
document sliced mid-number. -/
theorem c3_midnumber_early_parse_cex :
    loads [49, 50, 51] = some (Json.num 123)
    ∧ (List.foldl fbStep fbInit [[49, 50]]).classified = [Json.num 12]
    ∧ (handle_non_streaming_response [[49, 50], [51]]).classified = [Json.num 12, Json.num 3]
    ∧ ([Json.num 12] : List Json) ≠ [] :=
  ⟨rfl, rfl, rfl, List.cons_ne_nil _ _⟩

/-
  Claim C5.
-/

/-- C5 (amended): in SSE mode, every non-empty line that does not start
with the data prefix is printed and appended to the content parts
verbatim; it is not attempted as JSON and never reaches the event
classifier (see the counterexample for a parseable such line). -/
theorem c5_nonprefixed_line_amended (lb t : List Nat) (hne : lb ≠ [])
    (hdec : utf8DecodeStrict lb = some t)
    (hpre : (strCp "data: ").isPrefixOf t = false) :
    sseLine lb = Except.ok ([t], [Json.str t]) := by
  cases lb with
  | nil => exact absurd rfl hne
  | cons b bs =>
    simp only [sseLine, hdec, hpre, Bool.false_eq_true, if_false]

/-- C5 witness: the plain line hello is printed and collected verbatim. -/
theorem c5_nonprefixed_line_amended_witness :
    sseLine (strCp "hello") = Except.ok ([strCp "hello"], [Json.str (strCp "hello")]) :=
  c5_nonprefixed_line_amended (strCp "hello") (strCp "hello") (by decide) rfl rfl

/-- The non-prefixed line of the C5 counterexample, the bytes of a JSON
object with a single status key. -/
def c5line : List Nat := [123, 34, 115, 116, 97, 116, 117, 115, 34, 58, 32, 34, 111, 107, 34, 125]

/-- C5 (counterexample): a non-prefixed line holding a JSON object with
only a status key parses as JSON and its classification would be a
display-only Status event with no fragment; but the SSE loop never
attempts the parse: it prints the raw line and appends it verbatim to the
content parts, contradicting the claimed classification of every
non-prefixed candidate payload. -/
theorem c5_nonprefixed_line_verbatim_cex :
    sseLine c5line = Except.ok ([c5line], [Json.str c5line])
    ∧ loads c5line = some (Json.obj (jobj [(kStatus, Json.str (strCp "ok"))]))
    ∧ process_streaming_chunk (Json.obj (jobj [(kStatus, Json.str (strCp "ok"))]))
        = Except.ok ([strCp "\n[status] ok"], Json.str [], Rule.statusRule)
    ∧ ([Json.str c5line] : List Json) ≠ [] :=
  ⟨rfl, rfl, rfl, List.cons_ne_nil _ _⟩

/-
  Claim C9.
-/

/-- C9 (amended): decode errors are recovered with replace-mode decoding
and parse errors by collecting the payload verbatim, so neither ends the
drain; but any exception raised inside the invocation try-block — a
transport failure raised by the call, or equally a classification error
surfacing through the drain — prints the single terminal error line and
makes the invocation return None, while an exception-free drain returns
the joined content parts. -/
theorem c9_error_paths_amended :
    (∀ msg, stream_response (Invocation.failure msg) = ([errLine msg], none))
    ∧ (∀ lines ps parts e, sseDrain lines = (ps, parts, some e) →
        stream_response (Invocation.sse lines)
          = ([strCp "[stream] starting..."] ++ ps ++ [errLine e.msg], none))
    ∧ (∀ lines ps parts s, sseDrain lines = (ps, parts, none) → joinStrs parts = some s →
        stream_response (Invocation.sse lines)
          = ([strCp "[stream] starting..."] ++ ps
            ++ [strCp "\n" ++ List.replicate 60 61, strCp "[stream] complete"], some s)) := by
  refine ⟨fun msg => rfl, ?_, ?_⟩
  · intro lines ps parts e h
    simp [stream_response, h]
  · intro lines ps parts s h hj
    simp [stream_response, h, hj]

/-- The SSE line of the failing C9 witness conjunct: a data payload whose
tool_use value is a string, which makes the classifier raise. -/
def c9wLine1 : List Nat :=
  strCp "data: " ++ [123, 34, 116, 111, 111, 108, 95, 117, 115, 101, 34, 58, 32, 34, 120, 34, 125]

/-- The SSE line of the clean C9 witness conjunct: a data payload with a
text field. -/
def c9wLine2 : List Nat := strCp "data: " ++ c2chunk

/-- C9 witness: the three paths at concrete inputs — a transport failure,
a drain ended by a classification exception, and a clean drain. -/
theorem c9_error_paths_amended_witness :
    stream_response (Invocation.failure (strCp "boom")) = ([errLine (strCp "boom")], none)
    ∧ stream_response (Invocation.sse [c9wLine1])
        = ([strCp "[stream] starting..."] ++ []
          ++ [errLine (PyErr.attributeError (noGetAttrMsg (strCp "str"))).msg], none)
    ∧ stream_response (Invocation.sse [c9wLine2])
        = ([strCp "[stream] starting..."] ++ [strCp "hi"]
          ++ [strCp "\n" ++ List.replicate 60 61, strCp "[stream] complete"], some (strCp "hi")) :=
  ⟨c9_error_paths_amended.1 (strCp "boom"),
   c9_error_paths_amended.2.1 [c9wLine1] [] []
     (PyErr.attributeError (noGetAttrMsg (strCp "str"))) rfl,
   c9_error_paths_amended.2.2 [c9wLine2] [strCp "hi"] [Json.str (strCp "hi")]
     (strCp "hi") rfl rfl⟩

/-- The SSE line of the C9 counterexample: a data payload whose step value
is the number 3, on which the classifier raises AttributeError. -/
def c9line : List Nat := strCp "data: " ++ [123, 34, 115, 116, 101, 112, 34, 58, 32, 51, 125]

/-- C9 (counterexample): an invocation whose transport succeeds and whose
drain hits a classification exception also prints the single terminal
error line and returns None — so it is not only transport-level failures
that end the invocation that way, refuting the claim. -/
theorem c9_classification_error_halts_cex :
    stream_response (Invocation.sse [c9line])
      = ([strCp "[stream] starting...", errLine (noGetAttrMsg (strCp "int"))], none) :=
  rfl
